import Mathlib

/-!
Verification development for the `hooktest` report renderer
(`src/hooktest/cli.py`, class `CustomLogger`).

Python strings are modelled as `List Char` (sequences of code points).
`click.style` is modelled by explicit ANSI escape sequences
(`"\x1b[<code>m" ++ text ++ "\x1b[0m"`), and `textwrap.wrap` by a greedy
word-wrapping function following the CPython algorithm with its default
options (`replace_whitespace`, `drop_whitespace`, `break_long_words`;
the `break_on_hyphens` refinement and multi-column tab expansion are not
modelled — no input considered here contains hyphens or tabs).
-/

set_option autoImplicit false
set_option maxRecDepth 100000

namespace Hooktest

/-- Python strings as sequences of code points. -/
abbrev Str := List Char

/-- The ANSI escape character. -/
def esc : Char := '\x1b'

/-! ### Basic string utilities -/

/-- Does `s` start with the pattern `pat`?  Models checking a Python
substring match at the start of a string. -/
def startsWith : Str → Str → Bool
  | [], _ => true
  | _ :: _, [] => false
  | p :: ps, c :: cs => p = c && startsWith ps cs

theorem startsWith_iff (pat : Str) : ∀ s : Str, startsWith pat s = true ↔ ∃ t, s = pat ++ t := by
  induction pat with
  | nil =>
      intro s
      simp [startsWith]
  | cons p ps ih =>
      intro s
      cases s with
      | nil => simp [startsWith]
      | cons c cs =>
          simp only [startsWith, Bool.and_eq_true, decide_eq_true_eq, ih cs]
          constructor
          · rintro ⟨rfl, t, rfl⟩
            exact ⟨t, rfl⟩
          · rintro ⟨t, h⟩
            cases h
            exact ⟨rfl, t, rfl⟩

/-- Python's `sep in s` substring test (for the non-empty separators used here). -/
def containsSub (sep : Str) : Str → Bool
  | [] => sep.isEmpty
  | c :: rest => startsWith sep (c :: rest) || containsSub sep rest

/-- If a non-empty pattern occurs in `s`, then its first character occurs in `s`. -/
theorem containsSub_head_mem {m : Char} {ms : Str} :
    ∀ {s : Str}, containsSub (m :: ms) s = true → m ∈ s := by
  intro s
  induction s with
  | nil => intro h; simp [containsSub, List.isEmpty] at h
  | cons c cs ih =>
      intro h
      simp only [containsSub, Bool.or_eq_true] at h
      rcases h with h | h
      · rcases (startsWith_iff (m :: ms) (c :: cs)).1 h with ⟨t, ht⟩
        rw [ht]
        exact List.mem_append_left _ (List.mem_cons_self m ms)
      · exact List.mem_cons_of_mem _ (ih h)

/-- Fuelled worker for `splitOnSub` (Python's `str.split(sep)`). -/
def splitOnSubF (sep : Str) : Nat → Str → List Str
  | _, [] => [[]]
  | 0, s => [s]
  | fuel + 1, c :: rest =>
    if sep ≠ [] ∧ startsWith sep (c :: rest) = true then
      [] :: splitOnSubF sep fuel (List.drop (sep.length - 1) rest)
    else
      match splitOnSubF sep fuel rest with
      | [] => [[c]]
      | t :: ts => (c :: t) :: ts

/-- Python's `s.split(sep)` for a non-empty separator `sep`. -/
def splitOnSub (sep s : Str) : List Str := splitOnSubF sep s.length s

/-- Python's `sep.join(parts)`. -/
def joinSep (sep : Str) : List Str → Str
  | [] => []
  | [x] => x
  | x :: y :: ys => x ++ sep ++ joinSep sep (y :: ys)

/-- Total length of a list of strings. -/
def sumLen (l : List Str) : Nat := (l.map List.length).sum

theorem splitOnSubF_ne_nil (sep : Str) : ∀ (fuel : Nat) (s : Str), splitOnSubF sep fuel s ≠ [] := by
  intro fuel
  induction fuel with
  | zero =>
      intro s
      cases s <;> simp [splitOnSubF]
  | succ n ih =>
      intro s
      cases s with
      | nil => simp [splitOnSubF]
      | cons c cs =>
          simp only [splitOnSubF]
          split
          · simp
          · split <;> simp_all

theorem joinSep_cons_cons (sep x t : Str) (ts : List Str) :
    joinSep sep ((x ++ t) :: ts) = x ++ joinSep sep (t :: ts) := by
  cases ts with
  | nil => simp [joinSep]
  | cons u us => simp [joinSep]

theorem joinSep_two (sep x y : Str) (ys : List Str) :
    joinSep sep (x :: y :: ys) = x ++ sep ++ joinSep sep (y :: ys) := rfl

/-- Splitting on a non-empty separator and rejoining with it reproduces the string. -/
theorem joinSep_splitOnSubF (sep : Str) (hsep : sep ≠ []) :
    ∀ (fuel : Nat) (s : Str), s.length ≤ fuel → joinSep sep (splitOnSubF sep fuel s) = s := by
  intro fuel
  induction fuel with
  | zero =>
      intro s hs
      cases s with
      | nil => simp [splitOnSubF, joinSep]
      | cons c cs => simp at hs
  | succ n ih =>
      intro s hs
      cases s with
      | nil => simp [splitOnSubF, joinSep]
      | cons c cs =>
          simp only [splitOnSubF]
          split
          · rename_i h
            rcases (startsWith_iff sep (c :: cs)).1 h.2 with ⟨t, ht⟩
            have hdrop : List.drop (sep.length - 1) cs = t := by
              have h1 : List.drop sep.length (c :: cs) = t := by
                rw [ht, List.drop_append_of_le_length (le_refl _)]
                simp
              cases hse : sep with
              | nil => exact absurd hse hsep
              | cons a as =>
                  rw [hse] at h1
                  simpa using h1
            have hlen : (List.drop (sep.length - 1) cs).length ≤ n := by
              have := List.length_drop (sep.length - 1) cs
              have hcs : cs.length ≤ n := by simpa using Nat.le_of_succ_le_succ hs
              omega
            have hrec := ih (List.drop (sep.length - 1) cs) hlen
            have hne := splitOnSubF_ne_nil sep n (List.drop (sep.length - 1) cs)
            cases hsp : splitOnSubF sep n (List.drop (sep.length - 1) cs) with
            | nil => exact absurd hsp hne
            | cons p ps =>
                rw [hsp] at hrec
                have : joinSep sep ([] :: p :: ps) = sep ++ joinSep sep (p :: ps) := by
                  simp [joinSep]
                rw [this, hrec, hdrop, ht]
          · have hcs : cs.length ≤ n := by simpa using Nat.le_of_succ_le_succ hs
            have hrec := ih cs hcs
            have hne := splitOnSubF_ne_nil sep n cs
            cases hsp : splitOnSubF sep n cs with
            | nil => exact absurd hsp hne
            | cons t ts =>
                rw [hsp] at hrec
                show joinSep sep ((c :: t) :: ts) = c :: cs
                rw [show (c :: t) = [c] ++ t from rfl, joinSep_cons_cons, hrec]
                rfl

theorem joinSep_splitOnSub (sep : Str) (hsep : sep ≠ []) (s : Str) :
    joinSep sep (splitOnSub sep s) = s :=
  joinSep_splitOnSubF sep hsep s.length s (le_refl _)

/-- If the separator occurs in `s`, splitting yields at least two parts. -/
theorem splitOnSubF_length_ge_two (sep : Str) (hsep : sep ≠ []) :
    ∀ (fuel : Nat) (s : Str), s.length ≤ fuel → containsSub sep s = true →
      2 ≤ (splitOnSubF sep fuel s).length := by
  intro fuel
  induction fuel with
  | zero =>
      intro s hs hc
      cases s with
      | nil =>
          simp [containsSub, List.isEmpty_iff] at hc
          exact absurd hc hsep
      | cons c cs => simp at hs
  | succ n ih =>
      intro s hs hc
      cases s with
      | nil =>
          simp [containsSub, List.isEmpty_iff] at hc
          exact absurd hc hsep
      | cons c cs =>
          simp only [splitOnSubF]
          split
          · have hne := splitOnSubF_ne_nil sep n (List.drop (sep.length - 1) cs)
            cases hsp : splitOnSubF sep n (List.drop (sep.length - 1) cs) with
            | nil => exact absurd hsp hne
            | cons p ps => simp
          · rename_i hcond
            have hsw : startsWith sep (c :: cs) = false := by
              by_contra hx
              exact hcond ⟨hsep, by simpa using hx⟩
            simp only [containsSub, Bool.or_eq_true, hsw, Bool.false_eq_true, false_or] at hc
            have hcs : cs.length ≤ n := by simpa using Nat.le_of_succ_le_succ hs
            have := ih cs hcs hc
            cases hsp : splitOnSubF sep n cs with
            | nil => exact absurd hsp (splitOnSubF_ne_nil sep n cs)
            | cons t ts =>
                rw [hsp] at this
                simpa using this

/-- Characters of the parts of a split all come from the original string. -/
theorem mem_of_mem_splitOnSub (sep : Str) (hsep : sep ≠ []) (s : Str) :
    ∀ p ∈ splitOnSub sep s, ∀ c ∈ p, c ∈ s := by
  have hjoin := joinSep_splitOnSub sep hsep s
  have : ∀ (parts : List Str), ∀ p ∈ parts, ∀ c ∈ p, c ∈ joinSep sep parts := by
    intro parts
    induction parts with
    | nil => simp
    | cons x xs ih =>
        intro p hp c hcp
        cases xs with
        | nil =>
            simp only [List.mem_singleton] at hp
            subst hp
            simpa [joinSep] using hcp
        | cons y ys =>
            rcases List.mem_cons.1 hp with rfl | hp'
            · rw [joinSep_two]
              exact List.mem_append_left _ (List.mem_append_left _ hcp)
            · rw [joinSep_two]
              exact List.mem_append_right _ (ih p hp' c hcp)
  intro p hp c hcp
  rw [← hjoin]
  exact this _ p hp c hcp

/-- Joining at least two parts with a strictly longer separator gives a strictly
longer string. -/
theorem joinSep_length_lt (s1 s2 : Str) (hlt : s2.length < s1.length) :
    ∀ parts : List Str, 2 ≤ parts.length →
      (joinSep s2 parts).length < (joinSep s1 parts).length := by
  intro parts
  induction parts with
  | nil => intro h; simp at h
  | cons x xs ih =>
      intro hlen
      cases xs with
      | nil => simp at hlen
      | cons y ys =>
          cases ys with
          | nil =>
              simp only [joinSep, List.length_append]
              omega
          | cons z zs =>
              have hrec := ih (by simp)
              rw [joinSep_two s1, joinSep_two s2]
              simp only [List.length_append]
              omega

/-! ### ANSI styling (model of `click.style`) -/

/-- The opening bytes of an ANSI SGR sequence: `"\x1b[" ++ code ++ "m"`. -/
def fgPre (code : Str) : Str := esc :: '[' :: (code ++ ['m'])

/-- `click.style(s, fg=color)` with default `reset=True`: the colour code,
the text, then the reset-all sequence `"\x1b[0m"` (which is `fgPre "0"`). -/
def styleFg (code : Str) (s : Str) : Str := fgPre code ++ s ++ fgPre "0".data

/-- `click.style(s, fg=color, bold=bold)`: optional colour code, optional bold
code, the text, then the reset-all sequence. -/
def pyStyle (color : Option Str) (bold : Bool) (s : Str) : Str :=
  (match color with
   | some code => fgPre code
   | none => []) ++
  (if bold then fgPre "1".data else []) ++ s ++ fgPre "0".data

/-- State machine removing ANSI escape sequences: in the `true` state we are
inside an escape sequence and skip characters through the terminating `m`. -/
def stripGo : Bool → Str → Str
  | _, [] => []
  | true, c :: rest => if c = 'm' then stripGo false rest else stripGo true rest
  | false, c :: rest => if c = esc then stripGo true rest else c :: stripGo false rest

/-- Remove all ANSI escape sequences (colour codes) from a string. -/
def stripColors (s : Str) : Str := stripGo false s

theorem stripGo_append_of_no_esc (a : Str) (ha : ∀ c ∈ a, c ≠ esc) (b : Str) :
    stripGo false (a ++ b) = a ++ stripGo false b := by
  induction a with
  | nil => rfl
  | cons c cs ih =>
      have hc : c ≠ esc := ha c (List.mem_cons_self c cs)
      simp only [List.cons_append, stripGo, if_neg hc, List.append_eq]
      rw [ih (fun x hx => ha x (List.mem_cons_of_mem c hx))]

theorem stripGo_true_through (a : Str) (ha : ∀ c ∈ a, c ≠ 'm') (b : Str) :
    stripGo true (a ++ 'm' :: b) = stripGo false b := by
  induction a with
  | nil => simp [stripGo]
  | cons c cs ih =>
      have hc : c ≠ 'm' := ha c (List.mem_cons_self c cs)
      simp only [List.cons_append, stripGo, if_neg hc]
      exact ih (fun x hx => ha x (List.mem_cons_of_mem c hx))

theorem stripGo_fgPre (code : Str) (hcode : ∀ c ∈ code, c ≠ 'm') (b : Str) :
    stripGo false (fgPre code ++ b) = stripGo false b := by
  have h1 : fgPre code ++ b = esc :: ('[' :: code) ++ 'm' :: b := by
    simp [fgPre]
  rw [h1]
  show stripGo false (esc :: (('[' :: code) ++ 'm' :: b)) = stripGo false b
  simp only [stripGo, if_pos rfl]
  exact stripGo_true_through ('[' :: code)
    (by
      intro x hx
      rcases List.mem_cons.1 hx with rfl | hx'
      · decide
      · exact hcode x hx') b

theorem stripGo_styleFg (code : Str) (hcode : ∀ c ∈ code, c ≠ 'm')
    (s : Str) (hs : ∀ c ∈ s, c ≠ esc) (b : Str) :
    stripGo false (styleFg code s ++ b) = s ++ stripGo false b := by
  have h1 : styleFg code s ++ b = fgPre code ++ (s ++ (fgPre "0".data ++ b)) := by
    simp [styleFg]
  rw [h1, stripGo_fgPre code hcode, stripGo_append_of_no_esc s hs,
    stripGo_fgPre "0".data (by decide)]

theorem stripColors_styleFg (code : Str) (hcode : ∀ c ∈ code, c ≠ 'm')
    (s : Str) (hs : ∀ c ∈ s, c ≠ esc) :
    stripColors (styleFg code s) = s := by
  have := stripGo_styleFg code hcode s hs []
  simpa [stripColors, stripGo] using this

/-! ### Line wrapping (model of `textwrap.wrap` with default options) -/

/-- Whitespace munging: every whitespace character becomes a plain space
(CPython's `expand_tabs` + `replace_whitespace` preprocessing). -/
def munge (s : Str) : Str := s.map (fun c => if c.isWhitespace then ' ' else c)

/-- Split a munged string into maximal runs of spaces and of non-spaces
(CPython's simple word separation). -/
def toChunks : Str → List Str
  | [] => []
  | c :: rest =>
    match toChunks rest with
    | [] => [[c]]
    | [] :: t => [c] :: [] :: t
    | (d :: ds) :: t =>
        if (c = ' ') = (d = ' ') then (c :: d :: ds) :: t else [c] :: (d :: ds) :: t

/-- Is this chunk entirely whitespace (CPython's `chunk.strip() == ''`)? -/
def isWS (s : Str) : Bool := s.all (fun c => c.isWhitespace)

/-- Greedily take chunks while the accumulated length stays within `width`;
returns the taken chunks and the remainder. -/
def takeFit (width : Nat) : Nat → List Str → List Str × List Str
  | _, [] => ([], [])
  | curLen, c :: cs =>
    if curLen + c.length ≤ width then
      let p := takeFit width (curLen + c.length) cs
      (c :: p.1, p.2)
    else ([], c :: cs)

/-- One wrapped line per fuel step, following CPython's `_wrap_chunks`:
optionally drop a leading whitespace chunk (once output exists), greedily fill
the line, break a chunk longer than `width`, drop a trailing whitespace chunk,
and emit the line if non-empty. -/
def wrapLines (width : Nat) : Nat → Bool → List Str → List Str
  | 0, _, _ => []
  | _ + 1, _, [] => []
  | fuel + 1, noLinesYet, c :: cs =>
    let chks1 := if noLinesYet = false ∧ isWS c = true then cs else c :: cs
    let p := takeFit width 0 chks1
    let q : List Str × List Str :=
      match p.2 with
      | r :: rs =>
          if width < r.length then
            let spaceLeft := if width < 1 then 1 else width - sumLen p.1
            (p.1 ++ [r.take spaceLeft], r.drop spaceLeft :: rs)
          else p
      | [] => p
    let cur := match q.1.getLast? with
      | some l => if isWS l = true then q.1.dropLast else q.1
      | none => q.1
    if cur = [] then wrapLines width fuel noLinesYet q.2
    else cur.flatten :: wrapLines width fuel false q.2

/-- `textwrap.wrap(s, width)` with the default options. -/
def wrap (s : Str) (width : Nat) : List Str :=
  let cks := toChunks (munge s)
  wrapLines width (sumLen cks + cks.length + 1) true cks

theorem takeFit_bound (width : Nat) :
    ∀ (cs : List Str) (curLen : Nat),
      curLen + sumLen (takeFit width curLen cs).1 ≤ width ∨ (takeFit width curLen cs).1 = [] := by
  intro cs
  induction cs with
  | nil => intro curLen; right; rfl
  | cons c cs ih =>
      intro curLen
      by_cases h : curLen + c.length ≤ width
      · rcases ih (curLen + c.length) with h2 | h2
        · left
          simp only [takeFit, if_pos h, sumLen, List.map_cons, List.sum_cons]
          simp only [sumLen] at h2
          omega
        · left
          simp only [takeFit, if_pos h, h2, sumLen, List.map_cons, List.sum_cons, List.map_nil,
            List.sum_nil]
          simpa [sumLen, h2] using h
      · right
        simp [takeFit, if_neg h]

theorem sumLen_dropLast_le : ∀ l : List Str, sumLen l.dropLast ≤ sumLen l := by
  intro l
  induction l with
  | nil => simp
  | cons x xs ih =>
      cases xs with
      | nil => simp [sumLen]
      | cons y ys =>
          rw [List.dropLast_cons₂]
          simp only [sumLen, List.map_cons, List.sum_cons] at ih ⊢
          omega

theorem sumLen_append (a b : List Str) : sumLen (a ++ b) = sumLen a + sumLen b := by
  simp [sumLen]

theorem length_join_eq_sumLen (l : List Str) : l.flatten.length = sumLen l := by
  simp [sumLen, List.length_flatten]

/-- Every line produced by the wrapping loop fits in `width` columns
(for a positive width). -/
theorem wrapLines_le (width : Nat) (hw : 1 ≤ width) :
    ∀ (fuel : Nat) (noLinesYet : Bool) (chks : List Str),
      ∀ line ∈ wrapLines width fuel noLinesYet chks, line.length ≤ width := by
  intro fuel
  induction fuel with
  | zero => intro _ _ line h; simp [wrapLines] at h
  | succ n ih =>
      intro noLinesYet chks line hline
      cases chks with
      | nil => simp [wrapLines] at hline
      | cons c cs =>
          simp only [wrapLines] at hline
          set chks1 := if noLinesYet = false ∧ isWS c = true then cs else c :: cs with hchks1
          set p := takeFit width 0 chks1 with hp
          have hp1 : sumLen p.1 ≤ width := by
            rcases takeFit_bound width chks1 0 with h | h
            · simpa using h
            · rw [hp, h]
              simp [sumLen]
          set q : List Str × List Str :=
            match p.2 with
            | r :: rs =>
                if width < r.length then
                  let spaceLeft := if width < 1 then 1 else width - sumLen p.1
                  (p.1 ++ [r.take spaceLeft], r.drop spaceLeft :: rs)
                else p
            | [] => p
            with hq
          have hq1 : sumLen q.1 ≤ width := by
            rw [hq]
            cases hp2 : p.2 with
            | nil => simpa using hp1
            | cons r rs =>
                simp only
                split
                · have hnw : ¬ width < 1 := by omega
                  simp only [if_neg hnw, sumLen_append]
                  have : sumLen [r.take (width - sumLen p.1)] ≤ width - sumLen p.1 := by
                    simp [sumLen, List.length_take]
                  omega
                · simpa using hp1
          set cur := match q.1.getLast? with
            | some l => if isWS l = true then q.1.dropLast else q.1
            | none => q.1
            with hcur
          have hcur1 : sumLen cur ≤ width := by
            rw [hcur]
            cases hgl : q.1.getLast? with
            | none => simpa using hq1
            | some l =>
                simp only
                split
                · exact le_trans (sumLen_dropLast_le q.1) hq1
                · simpa using hq1
          by_cases hnil : cur = []
          · rw [if_pos hnil] at hline
            exact ih noLinesYet q.2 line hline
          · rw [if_neg hnil] at hline
            rcases List.mem_cons.1 hline with rfl | h2
            · rw [length_join_eq_sumLen]
              exact hcur1
            · exact ih false q.2 line h2

/-- Every line of a wrapped text fits in `width` columns (positive width). -/
theorem wrap_le (s : Str) (width : Nat) (hw : 1 ≤ width) :
    ∀ line ∈ wrap s width, line.length ≤ width := by
  intro line h
  exact wrapLines_le width hw _ true _ line h

/-! ### Small caps and title casing (for `header`) -/

/-- The character substitution table of `to_small_caps` in `cli.py`
(`str.maketrans` from the lowercase alphabet to small-caps glyphs; note that
`s` and `x` map to themselves in the source table). -/
def small_caps_map (c : Char) : Char :=
  if c = 'a' then 'ᴀ' else if c = 'b' then 'ʙ' else if c = 'c' then 'ᴄ'
  else if c = 'd' then 'ᴅ' else if c = 'e' then 'ᴇ' else if c = 'f' then 'ꜰ'
  else if c = 'g' then 'ɢ' else if c = 'h' then 'ʜ' else if c = 'i' then 'ɪ'
  else if c = 'j' then 'ᴊ' else if c = 'k' then 'ᴋ' else if c = 'l' then 'ʟ'
  else if c = 'm' then 'ᴍ' else if c = 'n' then 'ɴ' else if c = 'o' then 'ᴏ'
  else if c = 'p' then 'ᴘ' else if c = 'q' then 'ǫ' else if c = 'r' then 'ʀ'
  else if c = 's' then 's' else if c = 't' then 'ᴛ' else if c = 'u' then 'ᴜ'
  else if c = 'v' then 'ᴠ' else if c = 'w' then 'ᴡ' else if c = 'x' then 'x'
  else if c = 'y' then 'ʏ' else if c = 'z' then 'ᴢ' else c

/-- `to_small_caps` from `cli.py`: translate every character through the
small-caps table (non-lowercase characters pass through unchanged). -/
def to_small_caps (s : Str) : Str := s.map small_caps_map

/-- Python's `str.title()` restricted to ASCII letters: a letter is uppercased
when the preceding character is not a letter, lowercased otherwise. -/
def pyTitleGo (prevCased : Bool) : Str → Str
  | [] => []
  | c :: rest =>
      (if c.isAlpha then (if prevCased then c.toLower else c.toUpper) else c) ::
        pyTitleGo c.isAlpha rest

/-- Python's `str.title()`. -/
def pyTitle (s : Str) : Str := pyTitleGo false s

/-! ### The `CustomLogger` class (`src/hooktest/cli.py`) -/

/-- The `self._eq` dictionary of `CustomLogger.__init__`: the closed mapping
from verbosity names to numeric thresholds; `none` models a `KeyError`. -/
def eqMap (name : String) : Option Nat :=
  if name = "minimal" then some 10
  else if name = "details" then some 5
  else if name = "verbose" then some 0
  else none

/-- State of a constructed `CustomLogger`: the configured numeric level and
the fixed layout constants set in `__init__`. -/
structure CustomLogger where
  level : Nat
  width : Nat
  tableIndent : Str
  deriving DecidableEq

/-- `CustomLogger.__init__(level)`: look the name up in the closed `_eq`
mapping (a `KeyError`, modelled by `none`, for unknown names) and record the
fixed width 88 and table indent `"\n    "`. -/
def CustomLogger.init (level : String) : Option CustomLogger :=
  (eqMap level).map (fun n => { level := n, width := 88, tableIndent := "\n    ".data })

/-- `CustomLogger._print`: look up the message level (raising `KeyError` for an
unrecognized name) and, when the threshold is at least the configured level,
emit the tab-indented, `click.style`-formatted string. -/
def CustomLogger.printImpl (L : CustomLogger) (s : Str) (level : String) (ind : Nat)
    (color : Option Str) (bold : Bool) : Except String (Option Str) :=
  match eqMap level with
  | none => .error "KeyError"
  | some t =>
      .ok (if L.level ≤ t then some (pyStyle color bold (List.replicate ind '\t' ++ s)) else none)

/-- `CustomLogger.header`: banner-decorated small-caps title, rendered bold. -/
def CustomLogger.header (L : CustomLogger) (s : Str) (level : String) :
    Except String (Option Str) :=
  L.printImpl ("\n==== ".data ++ to_small_caps (pyTitle s) ++ " ====".data) level 0 none true

/-- `CustomLogger.info`: the `INFO: `-prefixed line in cyan. -/
def CustomLogger.info (L : CustomLogger) (s : Str) (level : String) (ind : Nat) :
    Except String (Option Str) :=
  L.printImpl ("INFO: ".data ++ s) level ind (some "36".data) false

/-- `CustomLogger.filter_append`: look up the required level (raising
`KeyError` for an unrecognized name) and append `hay` exactly when the
required threshold is at least the configured level. -/
def CustomLogger.filter_append {α : Type} (L : CustomLogger) (haystack : List α) (hay : α)
    (level : String) : Except String (List α) :=
  match eqMap level with
  | none => .error "KeyError"
  | some t => .ok (if L.level ≤ t then haystack ++ [hay] else haystack)

/-- `CustomLogger.green_red`: failures are styled red — splitting on the table
indent if present so the indent itself stays uncolored (joined through an
extra reset-styled space); successes are styled green only when the configured
level is at most 5, and returned unchanged otherwise. -/
def CustomLogger.green_red (L : CustomLogger) (s : Str) (status : Bool) : Str :=
  if status = false then
    if containsSub L.tableIndent s = true then
      joinSep (styleFg "39".data " ".data ++ L.tableIndent)
        ((splitOnSub L.tableIndent s).map (fun sub => styleFg "31".data sub))
    else styleFg "31".data s
  else if L.level ≤ 5 then styleFg "32".data s
  else s

/-- `CustomLogger.checkmark`: the success or failure glyph, passed through
`green_red` with the entry's status. -/
def CustomLogger.checkmark (L : CustomLogger) (status : Bool) : Str :=
  if status = true then L.green_red "✔".data status else L.green_red "✗".data status

/-- Modelled from the spec: the `Log` record of `hooktest.tester` (imported by
`cli.py` but not part of the given sources) — spec §3 `LogEntry`:
`{name: string, status: boolean, details: optional string}`. -/
structure Log where
  name : Str
  status : Bool
  details : Option Str
  deriving DecidableEq

/-- Python truthiness fallback `d or default` for an optional string:
`None` and the empty string are falsy. -/
def pyOrStr (d : Option Str) (default : Str) : Str :=
  match d with
  | none => default
  | some s => if s = [] then default else s

/-- The per-entry rendering expression of `CustomLogger.filter_logs`:
successes render their details (or a checkmark glyph when absent/empty)
unwrapped; failures wrap their details to the configured width, join the
pieces with the table indent, and colorize — raising a `TypeError` (from
`textwrap.wrap(None)`) when a failure has no details. -/
def CustomLogger.renderLog (L : CustomLogger) (log : Log) : Except String Str :=
  if log.status = true then
    .ok (log.name ++ ": ".data ++ L.green_red (pyOrStr log.details "✔".data) log.status)
  else
    match log.details with
    | none => .error "TypeError"
    | some d =>
        .ok (log.name ++ ": ".data ++ L.green_red (joinSep L.tableIndent (wrap d L.width)) log.status)

/-- `CustomLogger.filter_logs`: keep an entry iff its status is false or the
configured level is at most 0, and render each kept entry in order. -/
def CustomLogger.filter_logs (L : CustomLogger) : List Log → Except String (List Str)
  | [] => .ok []
  | log :: rest =>
    if log.status = false ∨ L.level ≤ 0 then
      match L.renderLog log, L.filter_logs rest with
      | .ok r, .ok rs => .ok (r :: rs)
      | .error e, _ => .error e
      | .ok _, .error e => .error e
    else L.filter_logs rest

/-- The logger configured with `"minimal"`. -/
def Lminimal : CustomLogger := { level := 10, width := 88, tableIndent := "\n    ".data }

/-- The logger configured with `"details"`. -/
def Ldetails : CustomLogger := { level := 5, width := 88, tableIndent := "\n    ".data }

/-- The logger configured with `"verbose"`. -/
def Lverbose : CustomLogger := { level := 0, width := 88, tableIndent := "\n    ".data }

theorem init_minimal : CustomLogger.init "minimal" = some Lminimal := rfl

theorem init_details : CustomLogger.init "details" = some Ldetails := rfl

theorem init_verbose : CustomLogger.init "verbose" = some Lverbose := rfl

/-- Every constructed logger carries the fixed layout constants. -/
theorem init_fields (name : String) (L : CustomLogger) (h : CustomLogger.init name = some L) :
    L.width = 88 ∧ L.tableIndent = "\n    ".data := by
  unfold CustomLogger.init at h
  cases he : eqMap name with
  | none => rw [he] at h; simp at h
  | some n =>
      rw [he] at h
      simp only [Option.map_some', Option.some.injEq] at h
      rw [← h]
      exact ⟨rfl, rfl⟩

/-! ### Further helper lemmas -/

/-- Unfolding of `filter_logs` on a non-empty list. -/
theorem filter_logs_cons (L : CustomLogger) (hd : Log) (tl : List Log) :
    L.filter_logs (hd :: tl) =
      if hd.status = false ∨ L.level ≤ 0 then
        match L.renderLog hd, L.filter_logs tl with
        | .ok r, .ok rs => .ok (r :: rs)
        | .error e, _ => .error e
        | .ok _, .error e => .error e
      else L.filter_logs tl := rfl

/-- `renderLog` can only fail on a failing entry without details. -/
theorem renderLog_error (L : CustomLogger) (log : Log) (e : String)
    (h : L.renderLog log = .error e) : log.status = false ∧ log.details = none := by
  obtain ⟨nm, st, dt⟩ := log
  cases st with
  | true => simp [CustomLogger.renderLog] at h
  | false =>
      cases dt with
      | none => exact ⟨rfl, rfl⟩
      | some d => simp [CustomLogger.renderLog] at h

/-- Stripping two nested identical colour layers recovers the plain string. -/
theorem stripColors_styleFg_styleFg (code : Str) (hcode : ∀ c ∈ code, c ≠ 'm')
    (s : Str) (hs : ∀ c ∈ s, c ≠ esc) :
    stripColors (styleFg code (styleFg code s)) = s := by
  have h1 : styleFg code (styleFg code s) = fgPre code ++ (styleFg code s ++ fgPre "0".data) := by
    simp [styleFg]
  have h2 : stripGo false (fgPre "0".data) = [] := by
    have := stripGo_fgPre "0".data (by decide) []
    simpa using this
  rw [stripColors, h1, stripGo_fgPre code hcode, stripGo_styleFg code hcode s hs, h2,
    List.append_nil]

/-- The marker that `__init__` fixes as `self._table_indent`. -/
def markerStr : Str := "\n    ".data

/-- The input string with one extra space inserted before every marker
occurrence: the pieces between markers, rejoined by space-plus-marker. -/
def addSpaceBeforeMarker (s : Str) : Str :=
  joinSep (' ' :: markerStr) (splitOnSub markerStr s)

/-- Stripping colours from the red-styled, reset-space-joined rendering of the
parts recovers the parts joined by one space plus the marker. -/
theorem strip_joined_red (parts : List Str) (hparts : ∀ p ∈ parts, ∀ c ∈ p, c ≠ esc) :
    stripGo false (joinSep (styleFg "39".data " ".data ++ markerStr)
      (parts.map (fun sub => styleFg "31".data sub))) =
    joinSep (' ' :: markerStr) parts := by
  induction parts with
  | nil => rfl
  | cons p ps ih =>
      have hp := hparts p (List.mem_cons_self _ _)
      cases ps with
      | nil =>
          simp only [List.map_cons, List.map_nil, joinSep]
          have := stripGo_styleFg "31".data (by decide) p hp []
          simpa [stripGo] using this
      | cons q qs =>
          have hih := ih (fun x hx => hparts x (List.mem_cons_of_mem p hx))
          rw [List.map_cons] at hih
          rw [List.map_cons, List.map_cons, joinSep_two, joinSep_two,
            List.append_assoc, List.append_assoc,
            stripGo_styleFg "31".data (by decide) p hp,
            stripGo_styleFg "39".data (by decide) " ".data (by decide),
            stripGo_append_of_no_esc markerStr (by decide), hih]
          simp [List.append_assoc]

/-! ### Claim C1 -/

/-- C1 (corrected): a status-true entry is included by `filter_logs` iff the
configured level is `verbose`; it is excluded under both `minimal` and
`details`. -/
theorem C1_success_only_at_verbose (log : Log) (h : log.status = true) :
    CustomLogger.filter_logs Lminimal [log] = .ok [] ∧
    CustomLogger.filter_logs Ldetails [log] = .ok [] ∧
    ∃ s, CustomLogger.filter_logs Lverbose [log] = .ok [s] := by
  refine ⟨?_, ?_, ?_⟩
  · simp [CustomLogger.filter_logs, h, Lminimal]
  · simp [CustomLogger.filter_logs, h, Ldetails]
  · exact ⟨log.name ++ ": ".data ++ Lverbose.green_red (pyOrStr log.details "✔".data) true,
      by simp [CustomLogger.filter_logs, CustomLogger.renderLog, h, Lverbose]⟩

/-- C1 witness: the amended statement at a concrete successful entry. -/
theorem C1_witness :
    CustomLogger.filter_logs Lminimal [⟨"well-formed".data, true, none⟩] = .ok [] ∧
    CustomLogger.filter_logs Ldetails [⟨"well-formed".data, true, none⟩] = .ok [] ∧
    ∃ s, CustomLogger.filter_logs Lverbose [⟨"well-formed".data, true, none⟩] = .ok [s] :=
  C1_success_only_at_verbose ⟨"well-formed".data, true, none⟩ rfl

/-- C1 counterexample: under `details` a successful entry is NOT included —
`filter_logs` returns empty output, contradicting inclusion at level
`details`. -/
theorem C1_counterexample :
    CustomLogger.init "details" = some Ldetails ∧
    CustomLogger.filter_logs Ldetails [⟨"well-formed".data, true, some "x".data⟩] = .ok [] :=
  ⟨rfl, rfl⟩

/-! ### Claim C2 -/

/-- C2 (confirmed): for every configured level, every entry with
`status == false` in the input of a successful `filter_logs` run has its
rendering in the output. -/
theorem C2_failures_always_included (name : String) (L : CustomLogger)
    (hL : CustomLogger.init name = some L) (content : List Log) (out : List Str)
    (hout : CustomLogger.filter_logs L content = .ok out)
    (log : Log) (hmem : log ∈ content) (hst : log.status = false) :
    ∃ r, CustomLogger.renderLog L log = .ok r ∧ r ∈ out := by
  clear hL
  have main : ∀ (content : List Log) (out : List Str),
      CustomLogger.filter_logs L content = .ok out →
      ∀ log ∈ content, log.status = false →
      ∃ r, CustomLogger.renderLog L log = .ok r ∧ r ∈ out := by
    intro content
    induction content with
    | nil => intro out _ log hmem; cases hmem
    | cons hd tl ih =>
        intro out hout log hmem hst
        rw [filter_logs_cons] at hout
        rcases List.mem_cons.1 hmem with rfl | hmem'
        · rw [if_pos (Or.inl hst)] at hout
          cases hr : L.renderLog log with
          | error e => rw [hr] at hout; cases hout
          | ok r =>
              rw [hr] at hout
              cases hrest : L.filter_logs tl with
              | error e => rw [hrest] at hout; cases hout
              | ok rs =>
                  rw [hrest] at hout
                  simp only [Except.ok.injEq] at hout
                  exact ⟨r, rfl, by rw [← hout]; exact List.mem_cons_self _ _⟩
        · by_cases hcond : hd.status = false ∨ L.level ≤ 0
          · rw [if_pos hcond] at hout
            cases hr : L.renderLog hd with
            | error e => rw [hr] at hout; cases hout
            | ok r =>
                rw [hr] at hout
                cases hrest : L.filter_logs tl with
                | error e => rw [hrest] at hout; cases hout
                | ok rs =>
                    rw [hrest] at hout
                    simp only [Except.ok.injEq] at hout
                    obtain ⟨r2, hr2, hmemr⟩ := ih rs hrest log hmem' hst
                    exact ⟨r2, hr2, by rw [← hout]; exact List.mem_cons_of_mem _ hmemr⟩
          · rw [if_neg hcond] at hout
            exact ih out hout log hmem' hst
  exact main content out hout log hmem hst

/-- C2 witness: a concrete failing entry is included at the `minimal` level. -/
theorem C2_witness :
    ∃ r, CustomLogger.renderLog Lminimal ⟨"schema".data, false, some "missing element X".data⟩ =
        .ok r ∧ r ∈ [("schema: \x1b[31mmissing element X\x1b[0m").data] :=
  C2_failures_always_included "minimal" Lminimal rfl
    [⟨"schema".data, false, some "missing element X".data⟩]
    [("schema: \x1b[31mmissing element X\x1b[0m").data] rfl
    ⟨"schema".data, false, some "missing element X".data⟩ (List.mem_singleton.2 rfl) rfl

/-! ### Claim C3 -/

/-- C3 (code bug): a failing entry with no details makes `filter_logs` raise
(`textwrap.wrap(None)` raises a `TypeError`), at every configured level — the
spec requires a minimal render and no error for missing details. -/
theorem C3_failure_without_details_raises :
    CustomLogger.filter_logs Lminimal [⟨"schema".data, false, none⟩] = .error "TypeError" ∧
    CustomLogger.filter_logs Ldetails [⟨"schema".data, false, none⟩] = .error "TypeError" ∧
    CustomLogger.filter_logs Lverbose [⟨"schema".data, false, none⟩] = .error "TypeError" :=
  ⟨rfl, rfl, rfl⟩

/-! ### Claim C4 -/

/-- C4 (corrected): wrapping applies only to failing entries. An included
failing entry with details present renders as the name label plus the
colorized wrap of the details joined by the indent marker, and every wrapped
line fits in 88 columns. -/
theorem C4_wrap_failures_only (name : String) (L : CustomLogger)
    (hL : CustomLogger.init name = some L) (nm d : Str) :
    CustomLogger.filter_logs L [⟨nm, false, some d⟩] =
      .ok [nm ++ ": ".data ++ L.green_red (joinSep "\n    ".data (wrap d 88)) false] ∧
    ∀ line ∈ wrap d 88, line.length ≤ 88 := by
  obtain ⟨hw, hti⟩ := init_fields name L hL
  constructor
  · simp [CustomLogger.filter_logs, CustomLogger.renderLog, hw, hti]
  · exact wrap_le d 88 (by omega)

/-- C4 witness: a 200-character details text wraps into three segments of 88,
88 and 24 characters, each within the 88-column budget. -/
theorem C4_witness :
    (CustomLogger.filter_logs Lminimal [⟨"schema".data, false, some (List.replicate 200 'a')⟩] =
      .ok ["schema".data ++ ": ".data ++
        Lminimal.green_red (joinSep "\n    ".data (wrap (List.replicate 200 'a') 88)) false] ∧
    ∀ line ∈ wrap (List.replicate 200 'a') 88, line.length ≤ 88) ∧
    wrap (List.replicate 200 'a') 88 =
      [List.replicate 88 'a', List.replicate 88 'a', List.replicate 24 'a'] :=
  ⟨C4_wrap_failures_only "minimal" Lminimal rfl "schema".data (List.replicate 200 'a'),
   by decide⟩

/-- C4 counterexample: at `verbose`, a successful entry with a 200-character
details text is rendered UNWRAPPED (one 200-character segment), not in the
wrapped form the claim prescribes for every included entry with details. -/
theorem C4_counterexample :
    CustomLogger.filter_logs Lverbose [⟨"a".data, true, some (List.replicate 200 'a')⟩] =
      .ok ["a: ".data ++ styleFg "32".data (List.replicate 200 'a')] ∧
    "a: ".data ++ styleFg "32".data (List.replicate 200 'a') ≠
      "a: ".data ++ Lverbose.green_red
        (joinSep Lverbose.tableIndent (wrap (List.replicate 200 'a') Lverbose.width)) true :=
  ⟨rfl, by decide⟩

/-! ### Claim C5 -/

/-- C5 (corrected): `checkmark(false)` is the red failure glyph at every
level, but `checkmark(true)` is the green success glyph only under `details`
and `verbose` — under `minimal` it is returned plain, uncolorized. -/
theorem C5_checkmark_colors :
    CustomLogger.checkmark Lminimal false = styleFg "31".data "✗".data ∧
    CustomLogger.checkmark Ldetails false = styleFg "31".data "✗".data ∧
    CustomLogger.checkmark Lverbose false = styleFg "31".data "✗".data ∧
    CustomLogger.checkmark Lminimal true = "✔".data ∧
    CustomLogger.checkmark Ldetails true = styleFg "32".data "✔".data ∧
    CustomLogger.checkmark Lverbose true = styleFg "32".data "✔".data :=
  ⟨rfl, rfl, rfl, rfl, rfl, rfl⟩

/-- C5 counterexample: at the `minimal` level the success checkmark carries no
colour at all (no escape character in it), contradicting "always colorized
regardless of level". -/
theorem C5_counterexample :
    CustomLogger.checkmark Lminimal true = "✔".data ∧ esc ∉ "✔".data :=
  ⟨rfl, by decide⟩

/-! ### Claim C6 -/

/-- C6 (confirmed): with `status == true`, `green_red` applies the success
colour exactly when the configured threshold is at most 5; under `minimal`
(threshold 10) the string is returned unchanged. -/
theorem C6_green_only_when_level_le_5 (L : CustomLogger) (s : Str) :
    CustomLogger.green_red L s true = (if L.level ≤ 5 then styleFg "32".data s else s) ∧
    CustomLogger.green_red Lminimal s true = s ∧ Lminimal.level = 10 := by
  refine ⟨?_, ?_, rfl⟩
  · simp [CustomLogger.green_red]
  · simp [CustomLogger.green_red, Lminimal]

/-! ### Claim C7 -/

/-- C7 (corrected): `filter_append` appends exactly when the REQUIRED level's
threshold is numerically at least the CONFIGURED level's threshold (the
converse of the claim's stated comparison); the collection grows by 0 or 1
and its previous contents stay as an unchanged prefix. -/
theorem C7_append_iff_required_ge_configured (name : String) (L : CustomLogger)
    (hL : CustomLogger.init name = some L) (α : Type) (haystack : List α) (hay : α)
    (req : String) (t : Nat) (hreq : eqMap req = some t) :
    CustomLogger.filter_append L haystack hay req =
      .ok (if t ≥ L.level then haystack ++ [hay] else haystack) ∧
    ∀ out, CustomLogger.filter_append L haystack hay req = .ok out →
      (out.length = haystack.length ∨ out.length = haystack.length + 1) ∧
      out.take haystack.length = haystack := by
  clear hL
  have h1 : CustomLogger.filter_append L haystack hay req =
      .ok (if t ≥ L.level then haystack ++ [hay] else haystack) := by
    simp [CustomLogger.filter_append, hreq, ge_iff_le]
  refine ⟨h1, ?_⟩
  intro out hout
  rw [h1] at hout
  simp only [Except.ok.injEq] at hout
  subst hout
  by_cases h : t ≥ L.level
  · rw [if_pos h]
    exact ⟨Or.inr (by simp), List.take_left haystack [hay]⟩
  · rw [if_neg h]
    exact ⟨Or.inl rfl, List.take_length haystack⟩

/-- C7 witness: configured `verbose` (threshold 0), required `minimal`
(threshold 10): the item is appended after the existing one. -/
theorem C7_witness :
    CustomLogger.filter_append Lverbose [(5 : Nat)] 7 "minimal" =
      .ok (if (10 : Nat) ≥ Lverbose.level then [5] ++ [7] else [5]) ∧
    ∀ out, CustomLogger.filter_append Lverbose [(5 : Nat)] 7 "minimal" = .ok out →
      (out.length = [(5 : Nat)].length ∨ out.length = [(5 : Nat)].length + 1) ∧
      out.take [(5 : Nat)].length = [5] :=
  C7_append_iff_required_ge_configured "verbose" Lverbose rfl Nat [5] 7 "minimal" 10 rfl

/-- C7 counterexample: with configured `verbose` (threshold 0) and required
`minimal` (threshold 10), the configured threshold is NOT ≥ the required one,
yet the item IS appended — the claim's comparison is inverted. -/
theorem C7_counterexample :
    eqMap "minimal" = some 10 ∧ Lverbose.level = 0 ∧ ¬ Lverbose.level ≥ 10 ∧
    CustomLogger.filter_append Lverbose [(5 : Nat)] 7 "minimal" = .ok [5, 7] :=
  ⟨rfl, rfl, by decide, rfl⟩

/-! ### Claim C8 -/

/-- C8 (corrected): colorizing a failure string twice is idempotent modulo
colour stripping for strings without a newline (hence without the indent
marker); marker-containing strings violate it (see the counterexample). -/
theorem C8_idempotent_without_marker (name : String) (L : CustomLogger)
    (hL : CustomLogger.init name = some L) (s : Str)
    (hesc : ∀ c ∈ s, c ≠ esc) (hnl : ∀ c ∈ s, c ≠ '\n') :
    stripColors (CustomLogger.green_red L (CustomLogger.green_red L s false) false) =
      stripColors (CustomLogger.green_red L s false) ∧
    stripColors (CustomLogger.green_red L s false) = s := by
  obtain ⟨hw, hti⟩ := init_fields name L hL
  have hcontOf : ∀ (t : Str), (∀ c ∈ t, c ≠ '\n') → containsSub L.tableIndent t = false := by
    intro t ht
    rw [hti]
    cases hx : containsSub "\n    ".data t with
    | false => rfl
    | true =>
        have hx2 : containsSub ('\n' :: "    ".data) t = true := hx
        exact absurd rfl (ht '\n' (containsSub_head_mem hx2))
  have hcont := hcontOf s hnl
  have hgr : CustomLogger.green_red L s false = styleFg "31".data s := by
    simp [CustomLogger.green_red, hcont]
  have hnl1 : ∀ c ∈ styleFg "31".data s, c ≠ '\n' := by
    intro c hc
    rw [styleFg] at hc
    rcases List.mem_append.1 hc with hc1 | hc2
    · rcases List.mem_append.1 hc1 with hc3 | hc4
      · exact (by decide : ∀ x ∈ fgPre "31".data, x ≠ '\n') c hc3
      · exact hnl c hc4
    · exact (by decide : ∀ x ∈ fgPre "0".data, x ≠ '\n') c hc2
  have hcont1 := hcontOf (styleFg "31".data s) hnl1
  have hgr2 : CustomLogger.green_red L (styleFg "31".data s) false =
      styleFg "31".data (styleFg "31".data s) := by
    simp [CustomLogger.green_red, hcont1]
  have hstrip1 : stripColors (styleFg "31".data s) = s :=
    stripColors_styleFg "31".data (by decide) s hesc
  have hstrip2 : stripColors (styleFg "31".data (styleFg "31".data s)) = s :=
    stripColors_styleFg_styleFg "31".data (by decide) s hesc
  constructor
  · rw [hgr, hgr2, hstrip2, hstrip1]
  · rw [hgr, hstrip1]

/-- C8 witness: idempotence modulo stripping at a concrete single-line
string. -/
theorem C8_witness :
    (stripColors (CustomLogger.green_red Lminimal
        (CustomLogger.green_red Lminimal "abc".data false) false) =
      stripColors (CustomLogger.green_red Lminimal "abc".data false)) ∧
    stripColors (CustomLogger.green_red Lminimal "abc".data false) = "abc".data :=
  C8_idempotent_without_marker "minimal" Lminimal rfl "abc".data (by decide) (by decide)

/-- C8 counterexample: for a details string containing the indent marker, a
second colorization adds a second space before the marker, so the stripped
results differ — idempotence fails exactly on the multi-line wrapped strings
the claim includes. -/
theorem C8_counterexample :
    stripColors (CustomLogger.green_red Lminimal
        (CustomLogger.green_red Lminimal "ab\n    cd".data false) false) ≠
      stripColors (CustomLogger.green_red Lminimal "ab\n    cd".data false) := by
  decide

/-! ### Claim C9 -/

/-- C9 (corrected): an unrecognized verbosity name at construction is rejected
immediately by the closed `_eq` lookup, and every rendering operation succeeds
for recognized per-call level names; `filter_logs` can only fail through the
missing-details bug, never through a verbosity name.  (But see the
counterexample: rendering operations DO raise a lookup error at run time when
handed an unrecognized per-call level name.) -/
theorem C9_config_rejected_at_construction (name : String) :
    (CustomLogger.init name = none ↔ eqMap name = none) ∧
    (∀ (L : CustomLogger) (s : Str) (ind : Nat) (color : Option Str) (b : Bool) (t : Nat),
      eqMap name = some t → ∃ r, CustomLogger.printImpl L s name ind color b = .ok r) ∧
    (∀ (L : CustomLogger) (s : Str) (t : Nat),
      eqMap name = some t → ∃ r, CustomLogger.header L s name = .ok r) ∧
    (∀ (L : CustomLogger) (s : Str) (ind t : Nat),
      eqMap name = some t → ∃ r, CustomLogger.info L s name ind = .ok r) ∧
    (∀ (L : CustomLogger) (h : List Nat) (x t : Nat),
      eqMap name = some t → ∃ out, CustomLogger.filter_append L h x name = .ok out) ∧
    (∀ (L : CustomLogger) (content : List Log) (e : String),
      CustomLogger.filter_logs L content = .error e →
      ∃ log ∈ content, log.status = false ∧ log.details = none) := by
  refine ⟨?_, ?_, ?_, ?_, ?_, ?_⟩
  · unfold CustomLogger.init
    cases eqMap name <;> simp
  · intro L s ind color b t ht
    unfold CustomLogger.printImpl
    rw [ht]
    exact ⟨_, rfl⟩
  · intro L s t ht
    unfold CustomLogger.header CustomLogger.printImpl
    rw [ht]
    exact ⟨_, rfl⟩
  · intro L s ind t ht
    unfold CustomLogger.info CustomLogger.printImpl
    rw [ht]
    exact ⟨_, rfl⟩
  · intro L h x t ht
    unfold CustomLogger.filter_append
    rw [ht]
    exact ⟨_, rfl⟩
  · intro L content
    induction content with
    | nil => intro e he; cases he
    | cons hd tl ih =>
        intro e he
        rw [filter_logs_cons] at he
        by_cases hcond : hd.status = false ∨ L.level ≤ 0
        · rw [if_pos hcond] at he
          cases hr : L.renderLog hd with
          | error e2 =>
              obtain ⟨h1, h2⟩ := renderLog_error L hd e2 hr
              exact ⟨hd, List.mem_cons_self _ _, h1, h2⟩
          | ok r =>
              rw [hr] at he
              cases hrest : L.filter_logs tl with
              | error e3 =>
                  obtain ⟨lg, hlg, h1, h2⟩ := ih e3 hrest
                  exact ⟨lg, List.mem_cons_of_mem _ hlg, h1, h2⟩
              | ok rs => rw [hrest] at he; cases he
        · rw [if_neg hcond] at he
          obtain ⟨lg, hlg, h1, h2⟩ := ih e he
          exact ⟨lg, List.mem_cons_of_mem _ hlg, h1, h2⟩

/-- C9 witness: the lookup rejects a concrete unknown name at construction and
accepts concrete recognized names in rendering operations. -/
theorem C9_witness :
    (CustomLogger.init "bogus" = none ↔ eqMap "bogus" = none) ∧
    (∃ out, CustomLogger.filter_append Lminimal [(1 : Nat)] 2 "details" = .ok out) ∧
    (∃ r, CustomLogger.header Lminimal "report".data "minimal" = .ok r) :=
  ⟨(C9_config_rejected_at_construction "bogus").1,
   (C9_config_rejected_at_construction "details").2.2.2.2.1 Lminimal [1] 2 5 rfl,
   (C9_config_rejected_at_construction "minimal").2.2.1 Lminimal "report".data 10 rfl⟩

/-- C9 counterexample: a successfully constructed logger still raises a lookup
error AT RUN TIME when a rendering operation receives an unrecognized per-call
verbosity name, contradicting "no rendering operation raises an error at run
time due to an unrecognized verbosity name". -/
theorem C9_counterexample :
    CustomLogger.init "minimal" = some Lminimal ∧
    CustomLogger.filter_append Lminimal [(0 : Nat)] 1 "bogus" = .error "KeyError" ∧
    CustomLogger.info Lminimal "hello".data "bogus" 0 = .error "KeyError" :=
  ⟨rfl, rfl, rfl⟩

/-! ### Claim C10 -/

/-- C10 (confirmed): stripping colours from the failure colorization of a
marker-containing (escape-free) string yields the input with one extra space
before every marker — and in particular not the input itself. -/
theorem C10_failure_colorize_adds_space (name : String) (L : CustomLogger)
    (hL : CustomLogger.init name = some L) (s : Str)
    (hesc : ∀ c ∈ s, c ≠ esc) (hcont : containsSub markerStr s = true) :
    stripColors (CustomLogger.green_red L s false) = addSpaceBeforeMarker s ∧
    joinSep markerStr (splitOnSub markerStr s) = s ∧
    addSpaceBeforeMarker s ≠ s := by
  obtain ⟨hw, hti⟩ := init_fields name L hL
  have hmne : markerStr ≠ [] := by decide
  have hjoin := joinSep_splitOnSub markerStr hmne s
  refine ⟨?_, hjoin, ?_⟩
  · have hti2 : L.tableIndent = markerStr := hti
    have hgr : CustomLogger.green_red L s false =
        joinSep (styleFg "39".data " ".data ++ markerStr)
          ((splitOnSub markerStr s).map (fun sub => styleFg "31".data sub)) := by
      simp [CustomLogger.green_red, hti2, hcont]
    rw [hgr]
    exact strip_joined_red _
      (fun p hp c hc => hesc c (mem_of_mem_splitOnSub markerStr hmne s p hp c hc))
  · intro heq
    have h2 : 2 ≤ (splitOnSub markerStr s).length :=
      splitOnSubF_length_ge_two markerStr hmne s.length s (le_refl _) hcont
    have hlt := joinSep_length_lt (' ' :: markerStr) markerStr (by simp) _ h2
    rw [hjoin] at hlt
    rw [show addSpaceBeforeMarker s =
      joinSep (' ' :: markerStr) (splitOnSub markerStr s) from rfl] at heq
    rw [heq] at hlt
    exact lt_irrefl _ hlt

/-- C10 witness: the concrete two-line string gains exactly one space before
its marker. -/
theorem C10_witness :
    stripColors (CustomLogger.green_red Lminimal "ab\n    cd".data false) =
      addSpaceBeforeMarker "ab\n    cd".data ∧
    joinSep markerStr (splitOnSub markerStr "ab\n    cd".data) = "ab\n    cd".data ∧
    addSpaceBeforeMarker "ab\n    cd".data ≠ "ab\n    cd".data :=
  C10_failure_colorize_adds_space "minimal" Lminimal rfl "ab\n    cd".data
    (by decide) (by decide)

end Hooktest
